import Mathlib

/-!
Verification of the stimulus-source connection-topology compiler in
`sbs/db/sources.py` (spike-based-sampling), via a shallow embedding.

Weights, rates and other simulator parameters are modelled as rationals
(exact reals suffice for every property checked here, which only ever
compares, orders and copies these values).  Stateful backend calls
(`nest.Create`, `nest.Connect`, ...) are modelled as an ordered trace of
events; the compile routines of the source become pure functions from the
flat configuration data to a trace plus a wiring table plus an optional
error, raised exactly where the Python raises.
-/

/-- Receptor polarity of a wiring edge. -/
inductive Receptor where
  | excitatory
  | inhibitory
deriving DecidableEq, Repr

/-- Receptor rule of `connect_one_to_one` (sources.py lines 142-169):
`is_exc = np.array(s_weights > 0.)`; index 1 selects `"excitatory"`,
index 0 selects `"inhibitory"`, so `w > 0` is excitatory and `w <= 0`
(zero included) is inhibitory. -/
def connect_one_to_one_receptor (w : ℚ) : Receptor :=
  if 0 < w then .excitatory else .inhibitory

/-- Receptor rule of `FixedSpikeTrainConfiguration.connect_sources_regular`
(sources.py lines 962-994): the `"inh"` connection list keeps edges with
`weight < 0`, the `"exc"` list keeps edges with `weight >= 0`, so `w = 0`
lands in the excitatory bucket. -/
def connect_sources_regular_receptor (w : ℚ) : Receptor :=
  if w < 0 then .inhibitory else .excitatory

/-- Modelled from the spec (§4.4): the canonical receptor rule
`weight > 0 → excitatory`, `weight <= 0 → inhibitory` (zero inhibitory),
stated for refinement comparison with the rules found in the source. -/
def canonical_receptor (w : ℚ) : Receptor :=
  if 0 < w then .excitatory else .inhibitory

/-- `np.cumsum` on a list of natural numbers
(sources.py line 341: `offset_per_sampler = np.cumsum(num_sources_per_sampler)`). -/
def cumsum : List ℕ → List ℕ
  | [] => []
  | n :: ns => n :: (cumsum ns).map (n + ·)

/-- `np.where(idx < offsets)[0][0]`: index of the first entry of `offsets`
strictly greater than `idx`, `none` when there is no such entry
(sources.py lines 343-347). -/
def firstIdxLt (idx : ℕ) : List ℕ → Option ℕ
  | [] => none
  | o :: os => if idx < o then some 0 else (firstIdxLt idx os).map (· + 1)

/-- `idx_parrot_to_sampler` (sources.py lines 343-347 and 788-792): resolve a
flat parrot slot to the sampler owning it via the cumulative offset table. -/
def idx_parrot_to_sampler (numSourcesPerSampler : List ℕ) (idx : ℕ) : Option ℕ :=
  firstIdxLt idx (cumsum numSourcesPerSampler)

/-- Index of the first element of a list equal to `x`
(the `for i, st in enumerate(...): if equal: return i` pattern of
`FixedSpikeTrainConfiguration.create_connect_regular`, lines 909-916). -/
def findEqIdx [DecidableEq α] (x : α) : List α → Option ℕ
  | [] => none
  | y :: ys => if y = x then some 0 else (findEqIdx x ys).map (· + 1)

/-- First-occurrence-unique values of a list (order of first appearance). -/
def firstOccUnique [DecidableEq α] (l : List α) : List α :=
  l.foldl (fun acc x => if x ∈ acc then acc else acc ++ [x]) []

/-- Sorted unique values of `np.unique(rates)` (sources.py line 349):
the distinct values of the input in ascending order. -/
def npUniqueVals (l : List ℚ) : List ℚ :=
  (firstOccUnique l).mergeSort (· ≤ ·)

/-- The `return_inverse=True` part of `np.unique(rates, return_inverse=True)`
(sources.py line 349): for each input position, the index of its value inside
the sorted unique list. -/
def npUniqueInv (l : List ℚ) : List ℕ :=
  l.map (fun x => (findEqIdx x (npUniqueVals l)).getD 0)

/-- One step of the `get_index` helper of
`FixedSpikeTrainConfiguration.create_connect_regular` (lines 909-916): look
the spike-time list up in `all_spike_times`; on a miss append it and return
the fresh index.  The state is `(all_spike_times, indices so far)`. -/
def get_index_step (s : List (List ℚ) × List ℕ) (st : List ℚ) :
    List (List ℚ) × List ℕ :=
  match findEqIdx st s.1 with
  | some i => (s.1, s.2 ++ [i])
  | none => (s.1 ++ [st], s.2 ++ [s.1.length])

/-- The first-occurrence spike-train deduplication of
`create_connect_regular`: fold `get_index` over all per-spec spike-time
lists, returning `(all_spike_times, index per spec)`. -/
def dedupFirstOcc (specs : List (List ℚ)) : List (List ℚ) × List ℕ :=
  specs.foldl get_index_step ([], [])

/-- State threaded through `MultiPoissonVarRateSourceConfiguration.
_consolidate_sources` (lines 814-856): consolidated weights, consolidated
rate-change tables, and the index list built so far. -/
structure ConsolidateState where
  wcons : List ℚ
  rccons : List (List (ℚ × ℚ))
  idx : List ℕ
deriving DecidableEq, Repr

/-- Indices `i` of already-consolidated entries matching `(w, rc)` — the
inner loop of `_consolidate_sources` appends every such `i` (both `continue`
guards pass), and, having no `break`, always falls through to the `else`. -/
def consolidateMatches (wcons : List ℚ) (rccons : List (List (ℚ × ℚ)))
    (w : ℚ) (rc : List (ℚ × ℚ)) : List ℕ :=
  (List.range wcons.length).filter
    (fun i => decide (wcons.getD i 0 = w) && decide (rccons.getD i [] = rc))

/-- One iteration of the outer loop of `_consolidate_sources`, exactly as
written: the inner `for` appends an index per duplicate found, and the
`for`/`else` clause — which runs unconditionally because the loop body never
`break`s — appends the entry again as if it were unique. -/
def consolidateStep (s : ConsolidateState) (p : ℚ × List (ℚ × ℚ)) :
    ConsolidateState where
  wcons := s.wcons ++ [p.1]
  rccons := s.rccons ++ [p.2]
  idx := s.idx ++ consolidateMatches s.wcons s.rccons p.1 p.2 ++ [s.wcons.length]

/-- `MultiPoissonVarRateSourceConfiguration._consolidate_sources`
(lines 814-856), translated statement-for-statement including the missing
`break`: iterate over `izip(weights_per_source, rate_changes_per_source)`
threading the consolidation state. -/
def consolidate_sources (weights : List ℚ) (rateChanges : List (List (ℚ × ℚ))) :
    ConsolidateState :=
  (weights.zip rateChanges).foldl consolidateStep ⟨[], [], []⟩

/-- The degeneracy guard of the shared-generator (whole-population) branch
(sources.py lines 332-337 and 542-547): reject when `np.all(weights > 0)`
or `np.all(weights < 0)` (strict comparisons, as in the source). -/
def degeneracy_check (weights : List ℚ) : Except String Unit :=
  if weights.all (fun w => decide (0 < w)) then
    .error "Noise weights are all excitatory. Aborting."
  else if weights.all (fun w => decide (w < 0)) then
    .error "Noise weights are all inhibitory. Aborting."
  else
    .ok ()

/-- One backend (NEST) call, recorded in submission order.  `create` is an
entity-creation call (`nest.Create(model, n)`), `setStatus` a parameter
update, `connect` a connection call with the number of edges and the rule. -/
inductive BackendCall where
  | create (model : String) (n : ℕ)
  | setStatus (n : ℕ)
  | connect (n : ℕ) (rule : String)
deriving DecidableEq, Repr

/-- Whether a backend call creates entities. -/
def BackendCall.isCreate : BackendCall → Bool
  | .create _ _ => true
  | _ => false

/-- Total number of entities of a given model created along a trace. -/
def createdOfModel (model : String) (tr : List BackendCall) : ℕ :=
  (tr.map (fun e =>
    match e with
    | .create m n => if m = model then n else 0
    | _ => 0)).sum

/-- Result of one compile call: the ordered backend-call trace, the
relay-to-target wiring table `(parrot index, sampler index, weight)`, and the
error, `some` exactly when the Python raises. -/
structure CompileResult where
  trace : List BackendCall
  wiring : List (ℕ × ℕ × ℚ)
  err : Option String
deriving DecidableEq, Repr

/-- The data of one `PoissonSourceConfiguration` (sources.py lines 246-254):
per-source rates and signed weights. -/
structure PoissonSourceConfiguration where
  rates : List ℚ
  weights : List ℚ
deriving DecidableEq, Repr

/-- Source-model selection of `create_nest_optimized` (lines 311-318):
`lookahead_poisson_generator` when available, else `poisson_generator`. -/
def poisson_source_model (hasLookahead : Bool) : String :=
  if hasLookahead then "lookahead_poisson_generator" else "poisson_generator"

/-- Common tail of `PoissonSourceConfiguration.create_nest_optimized`
(lines 339-403) once the flat `num_sources_per_sampler`, `rates` and
`weights` arrays exist: unique rates become generators, one parrot exists
per flat source, generators fan out to parrots one-to-one and parrots wire
one-to-one to their samplers via the cumulative offset lookup. -/
def create_nest_optimized_core (sourceModel : String) (nsps : List ℕ)
    (rates weights : List ℚ) : CompileResult :=
  let uniqRates := npUniqueVals rates
  let idxSamplers :=
    (List.range rates.length).map (fun i => (idx_parrot_to_sampler nsps i).getD 0)
  { trace := [.create sourceModel uniqRates.length,
              .create "parrot_neuron" rates.length,
              .setStatus uniqRates.length,
              .connect rates.length "one_to_one",
              .connect rates.length "one_to_one"],
    wiring := (List.range rates.length).zip (idxSamplers.zip weights),
    err := none }

/-- `create_nest_optimized`, list-of-samplers branch (lines 320-324): no
validation, flatten the per-sampler rates and weights and run the core. -/
def create_nest_optimized_list (hasLookahead : Bool)
    (samplers : List PoissonSourceConfiguration) : CompileResult :=
  create_nest_optimized_core (poisson_source_model hasLookahead)
    (samplers.map (fun s => s.rates.length))
    (samplers.map (fun s => s.rates)).flatten
    (samplers.map (fun s => s.weights)).flatten

/-- `create_nest_optimized`, whole-population branch (lines 326-337): every
sampler shares the single configuration; the degeneracy guard runs before
any backend call. -/
def create_nest_optimized_pop (hasLookahead : Bool)
    (cfg : PoissonSourceConfiguration) (numSamplers : ℕ) : CompileResult :=
  let nsps := List.replicate numSamplers cfg.rates.length
  let rates := (List.replicate numSamplers cfg.rates).flatten
  let weights := (List.replicate numSamplers cfg.weights).flatten
  match degeneracy_check weights with
  | .error e => { trace := [], wiring := [], err := some e }
  | .ok _ =>
      create_nest_optimized_core (poisson_source_model hasLookahead)
        nsps rates weights

/-- The data of one `SinusPoissonSourceConfiguration`
(sources.py lines 476-485). -/
structure SinusPoissonSourceConfiguration where
  rates : List ℚ
  amplitudes : List ℚ
  frequencies : List ℚ
  phases : List ℚ
  weights : List ℚ
  individual_spike_trains : Bool
deriving DecidableEq, Repr

/-- Modelled from the spec: `utils.group_identical_parameters` (called at
sources.py line 570) lives in `sbs/utils.py`, which is not under `src/`.
Per spec §4.2 (Parameter Deduplicator) it collapses structurally identical
parameter tuples, yielding for each unique tuple (first-occurrence order)
the input indices holding it. -/
def group_identical_parameters (params : List (ℚ × ℚ × ℚ × ℚ)) :
    List (List ℕ × (ℚ × ℚ × ℚ × ℚ)) :=
  (firstOccUnique params).map (fun p =>
    ((List.range params.length).filter
      (fun i => decide (params.getD i (0, 0, 0, 0) = p)), p))

/-- Common tail of `SinusPoissonSourceConfiguration.create_nest`
(lines 549-634): one generator per unique `(rate, amplitude, frequency,
phase)` tuple; when `individual_spike_trains` is false an extra shared layer
of size `num_generators` is created — with model name `"parrot_neurons"`,
exactly as written at line 586 — and wired one-to-one from the hidden
generators; one visible parrot exists per flat source. -/
def sinus_create_nest_core (individual : Bool) (nsps : List ℕ)
    (rates amplitudes frequencies phases weights : List ℚ) : CompileResult :=
  let gathered := rates.zip (amplitudes.zip (frequencies.zip phases))
  let numGenerators := (group_identical_parameters gathered).length
  let numParrots := rates.length
  let idxSamplers :=
    (List.range numParrots).map (fun i => (idx_parrot_to_sampler nsps i).getD 0)
  { trace := [.create "sinusoidal_poisson_generator" numGenerators]
      ++ (if individual then []
          else [.create "parrot_neurons" numGenerators,
                .connect numGenerators "one_to_one"])
      ++ [.create "parrot_neuron" numParrots,
          .setStatus numGenerators,
          .connect numParrots "one_to_one",
          .connect numParrots "one_to_one"],
    wiring := (List.range numParrots).zip (idxSamplers.zip weights),
    err := none }

/-- `SinusPoissonSourceConfiguration.create_nest`, list-of-samplers branch
(lines 509-530): flattening an empty sampler list raises inside `np.hstack`;
inconsistent `individual_spike_trains` flags raise before any backend call. -/
def sinus_create_nest_list
    (samplers : List SinusPoissonSourceConfiguration) : CompileResult :=
  match samplers with
  | [] => { trace := [], wiring := [],
            err := some "need at least one array to concatenate" }
  | s0 :: _ =>
    if samplers.all
        (fun s => s.individual_spike_trains = s0.individual_spike_trains) then
      sinus_create_nest_core s0.individual_spike_trains
        (samplers.map (fun s => s.rates.length))
        (samplers.map (fun s => s.rates)).flatten
        (samplers.map (fun s => s.amplitudes)).flatten
        (samplers.map (fun s => s.frequencies)).flatten
        (samplers.map (fun s => s.phases)).flatten
        (samplers.map (fun s => s.weights)).flatten
    else { trace := [], wiring := [],
           err := some "All SinusPoissonSourceConfigurations must have the same individual_spike_trains setting!" }

/-- `SinusPoissonSourceConfiguration.create_nest`, whole-population branch
(lines 532-547): shared configuration, degeneracy guard before any backend
call. -/
def sinus_create_nest_pop (cfg : SinusPoissonSourceConfiguration)
    (numSamplers : ℕ) : CompileResult :=
  let weights := (List.replicate numSamplers cfg.weights).flatten
  match degeneracy_check weights with
  | .error e => { trace := [], wiring := [], err := some e }
  | .ok _ =>
      sinus_create_nest_core cfg.individual_spike_trains
        (List.replicate numSamplers cfg.rates.length)
        ((List.replicate numSamplers cfg.rates).flatten)
        ((List.replicate numSamplers cfg.amplitudes).flatten)
        ((List.replicate numSamplers cfg.frequencies).flatten)
        ((List.replicate numSamplers cfg.phases).flatten)
        weights

/-- `itertools.groupby` as used by `sources_create_connect` (sources.py
lines 30-51): maximal runs of consecutive elements sharing a key, each run
paired with its key, in submission order. -/
def groupByRuns [DecidableEq β] (f : α → β) : List α → List (β × List α)
  | [] => []
  | x :: xs =>
    match groupByRuns f xs with
    | [] => [(f x, [x])]
    | (k, g) :: rest =>
        if f x = k then (k, x :: g) :: rest
        else (f x, [x]) :: (k, g) :: rest

/-- `PoissonSourceConfiguration._verify_parameters` (lines 420-426): a
size-1 rates array is broadcast to the size of the weights array
(`np.array([self.rates] * self.weights.size)`, flattened here); any other
size mismatch raises; a matching size passes through unchanged. -/
def poisson_verify_parameters (rates weights : List ℚ) :
    Except String (List ℚ) :=
  if rates.length = 1 then
    .ok (List.replicate weights.length (rates.getD 0 0))
  else if rates.length ≠ weights.length then
    .error "rates-parameter needs to be either scalar or same length as weights-array."
  else
    .ok rates

/-- `SinusPoissonSourceConfiguration._verify_parameters` (lines 636-651),
behaviour for one of the four parameter arrays (`rates`, `amplitudes`,
`frequencies`, `phases`); the raise message contains a literal unformatted
`\x7b\x7d` placeholder because the source never calls `.format` on it. -/
def sinus_verify_parameter (param weights : List ℚ) :
    Except String (List ℚ) :=
  if param.length = 1 then
    .ok (List.replicate weights.length (param.getD 0 0))
  else if param.length ≠ weights.length then
    .error "\x7b\x7d-parameter needs to be either scalar or same length as weights-array."
  else
    .ok param

/-- Python slice `l[-k:]` for a nonnegative `k`: for `k = 0` this is `l[0:]`,
the whole list; otherwise the last `k` elements (all of `l` when `k` exceeds
the length). -/
def pySliceFromNeg (l : List α) (k : ℕ) : List α :=
  if k = 0 then l else l.drop (l.length - k)

/-- `np.around` on a scalar: round to the nearest integer, ties to even. -/
def roundHalfEven (q : ℚ) : ℤ :=
  if q - ⌊q⌋ < 1 / 2 then ⌊q⌋
  else if 1 / 2 < q - ⌊q⌋ then ⌊q⌋ + 1
  else if ⌊q⌋ % 2 = 0 then ⌊q⌋ else ⌊q⌋ + 1

/-- `num_exc` of `NoiseNetworkSourceConfiguration` and
`PoissonPoolSourceConfiguration` (lines 1074-1076 and 1340-1342):
`int(np.around(N * gamma))`. -/
def num_exc (N : ℕ) (gamma : ℚ) : ℕ :=
  (roundHalfEven (N * gamma)).toNat

/-- `num_inh = N - num_exc` (lines 1078-1080 and 1344-1346). -/
def num_inh (N : ℕ) (gamma : ℚ) : ℕ :=
  N - num_exc N gamma

/-- The source slices of `NoiseNetworkSourceConfiguration.create_connect`
(lines 1174-1175) and `PoissonPoolSourceConfiguration.create_connect`
(lines 1436-1437): `source[:num_exc]` and `source[-num_inh:]`. -/
def noise_network_slices (source : List α) (nExc nInh : ℕ) :
    List α × List α :=
  (source.take nExc, pySliceFromNeg source nInh)

-- ------------------------------------------------------------------
-- theorems
-- ------------------------------------------------------------------

theorem firstIdxLt_map_add (l : List ℕ) (n idx : ℕ) (h : n ≤ idx) :
    firstIdxLt idx (l.map (n + ·)) = firstIdxLt (idx - n) l := by
  induction l with
  | nil => rfl
  | cons o os ih =>
    simp only [List.map_cons, firstIdxLt, ih]
    have : idx < n + o ↔ idx - n < o := by omega
    rw [if_congr this rfl rfl]

theorem firstIdxLt_cumsum_iff (ns : List ℕ) (idx j : ℕ) :
    firstIdxLt idx (cumsum ns) = some j ↔
      ((ns.take j).sum ≤ idx ∧ idx < (ns.take (j + 1)).sum) := by
  induction ns generalizing idx j with
  | nil =>
    simp [cumsum, firstIdxLt]
  | cons n ns ih =>
    simp only [cumsum, firstIdxLt]
    by_cases h : idx < n
    · rw [if_pos h]
      cases j with
      | zero => simp [h]
      | succ k =>
        simp only [List.take_succ_cons, List.sum_cons]
        constructor
        · intro hc; exact absurd hc (by simp)
        · intro hc; omega
    · rw [if_neg h]
      rw [firstIdxLt_map_add _ _ _ (by omega)]
      cases j with
      | zero =>
        simp only [Option.map_eq_some', List.take_zero, List.sum_nil,
          List.take_succ_cons, List.take_zero, List.sum_cons, List.sum_nil]
        constructor
        · rintro ⟨a, _, hc⟩; omega
        · intro hc; omega
      | succ k =>
        simp only [Option.map_eq_some', List.take_succ_cons, List.sum_cons]
        constructor
        · rintro ⟨a, ha, hak⟩
          obtain rfl : a = k := by omega
          have := (ih (idx - n) a).mp ha
          omega
        · intro hc
          refine ⟨k, (ih (idx - n) k).mpr ⟨by omega, by omega⟩, rfl⟩

/-- Claim C2: for every vector of per-target source counts and every flat slot
index, the slot-to-target lookup built from the cumulative-sum offset table
returns exactly the target index `j` with
`sum(n_0..n_(j-1)) <= i < sum(n_0..n_j)`; moreover counts `[2, 1, 3]` give
offsets `[2, 3, 6]` and flat slot `4` resolves to target index `2`. -/
theorem offset_index_lookup_correct :
    (∀ (ns : List ℕ) (i j : ℕ),
      idx_parrot_to_sampler ns i = some j ↔
        ((ns.take j).sum ≤ i ∧ i < (ns.take (j + 1)).sum)) ∧
    cumsum [2, 1, 3] = [2, 3, 6] ∧
    idx_parrot_to_sampler [2, 1, 3] 4 = some 2 := by
  refine ⟨fun ns i j => firstIdxLt_cumsum_iff ns i j, by decide, by decide⟩

/-- Witness for C2: the general lookup equivalence applied at the concrete
scenario of the spec (counts `[2,1,3]`, slot `4`, target `2`). -/
theorem offset_index_lookup_correct_witness :
    idx_parrot_to_sampler [2, 1, 3] 4 = some 2 :=
  (offset_index_lookup_correct.1 [2, 1, 3] 4 2).mpr ⟨by decide, by decide⟩

/-- Claim C1, counterexample: at weight exactly `0`,
`FixedSpikeTrainConfiguration.connect_sources_regular` classifies the edge
excitatory while the canonical rule classifies it inhibitory, so receptor
classification is not uniform across code paths. -/
theorem receptor_rule_not_uniform_at_zero :
    connect_sources_regular_receptor 0 ≠ canonical_receptor 0 := by
  decide

/-- Claim C1, amended: `connect_one_to_one` follows the canonical rule at every
weight; `connect_sources_regular` agrees with the canonical rule at every
nonzero weight but classifies weight `0` excitatory. -/
theorem receptor_rules_amended (w : ℚ) :
    connect_one_to_one_receptor w = canonical_receptor w ∧
    (w ≠ 0 → connect_sources_regular_receptor w = canonical_receptor w) ∧
    connect_sources_regular_receptor 0 = Receptor.excitatory := by
  refine ⟨rfl, fun hw => ?_, by decide⟩
  unfold connect_sources_regular_receptor canonical_receptor
  rcases lt_trichotomy w 0 with h | h | h
  · rw [if_pos h, if_neg (by linarith)]
  · exact absurd h hw
  · rw [if_neg (by linarith), if_pos h]

/-- Witness for C1's amended theorem at weight `-1`. -/
theorem receptor_rules_amended_witness :
    connect_sources_regular_receptor (-1) = canonical_receptor (-1) :=
  (receptor_rules_amended (-1)).2.1 (by norm_num)

theorem findEqIdx_some_spec [DecidableEq α] (x : α) (l : List α) (i : ℕ) (d : α)
    (h : findEqIdx x l = some i) : i < l.length ∧ l.getD i d = x := by
  induction l generalizing i with
  | nil => simp [findEqIdx] at h
  | cons y ys ih =>
    by_cases hy : y = x
    · rw [findEqIdx, if_pos hy] at h
      obtain rfl : 0 = i := Option.some.inj h
      exact ⟨Nat.succ_pos _, hy⟩
    · rw [findEqIdx, if_neg hy, Option.map_eq_some'] at h
      obtain ⟨a, ha, rfl⟩ := h
      obtain ⟨h1, h2⟩ := ih a ha
      exact ⟨Nat.succ_lt_succ h1, by simpa using h2⟩

theorem findEqIdx_isSome_of_mem [DecidableEq α] {x : α} {l : List α}
    (h : x ∈ l) : (findEqIdx x l).isSome = true := by
  induction l with
  | nil => simp at h
  | cons y ys ih =>
    by_cases hy : y = x
    · simp [findEqIdx, hy]
    · rcases List.mem_cons.mp h with h | h
      · exact absurd h.symm hy
      · simp [findEqIdx, hy, ih h]

theorem mem_foldl_insertUnique [DecidableEq α] (l : List α) (acc : List α)
    (a : α) :
    a ∈ l.foldl (fun acc x => if x ∈ acc then acc else acc ++ [x]) acc ↔
      a ∈ acc ∨ a ∈ l := by
  induction l generalizing acc with
  | nil => simp
  | cons x xs ih =>
    simp only [List.foldl_cons, ih]
    by_cases hx : x ∈ acc
    · rw [if_pos hx]
      simp only [List.mem_cons]
      constructor
      · tauto
      · rintro (h | rfl | h)
        · left; exact h
        · left; exact hx
        · right; exact h
    · rw [if_neg hx]
      simp only [List.mem_append, List.mem_singleton, List.mem_cons]
      tauto

theorem mem_firstOccUnique [DecidableEq α] (l : List α) (a : α) :
    a ∈ firstOccUnique l ↔ a ∈ l := by
  unfold firstOccUnique
  rw [mem_foldl_insertUnique]
  simp

theorem np_unique_dedup_contract (l : List ℚ) (i : ℕ) (h : i < l.length) :
    (npUniqueVals l).getD ((npUniqueInv l).getD i 0) 0 = l.getD i 0 := by
  have hx : l.getD i 0 ∈ npUniqueVals l := by
    rw [npUniqueVals, List.mem_mergeSort, mem_firstOccUnique,
      List.getD_eq_getElem l 0 h]
    exact List.getElem_mem h
  obtain ⟨j, hj⟩ := Option.isSome_iff_exists.mp (findEqIdx_isSome_of_mem hx)
  have hinv : (npUniqueInv l).getD i 0 = j := by
    rw [npUniqueInv, List.getD_eq_getElem _ 0 (by simpa using h),
      List.getElem_map, ← List.getD_eq_getElem l 0 h, hj]
    rfl
  rw [hinv]
  exact (findEqIdx_some_spec _ _ _ _ hj).2

theorem dedupFirstOcc_contract (specs : List (List ℚ)) :
    (dedupFirstOcc specs).2.length = specs.length ∧
    ∀ i, i < specs.length →
      (dedupFirstOcc specs).2.getD i 0 < (dedupFirstOcc specs).1.length ∧
      (dedupFirstOcc specs).1.getD ((dedupFirstOcc specs).2.getD i 0) [] =
        specs.getD i [] := by
  induction specs using List.reverseRecOn with
  | nil => simp [dedupFirstOcc]
  | append_singleton pre x ih =>
    obtain ⟨hlen, hall⟩ := ih
    have hstep : dedupFirstOcc (pre ++ [x]) =
        get_index_step (dedupFirstOcc pre) x := by
      unfold dedupFirstOcc
      rw [List.foldl_append]
      rfl
    cases hfind : findEqIdx x (dedupFirstOcc pre).1 with
    | some i0 =>
      have hspec := findEqIdx_some_spec x (dedupFirstOcc pre).1 i0 [] hfind
      have hres : dedupFirstOcc (pre ++ [x]) =
          ((dedupFirstOcc pre).1, (dedupFirstOcc pre).2 ++ [i0]) := by
        rw [hstep]; unfold get_index_step; rw [hfind]
      rw [hres]
      refine ⟨by simpa using by omega, fun k hk => ?_⟩
      simp only [List.length_append, List.length_singleton] at hk
      by_cases hklt : k < pre.length
      · rw [List.getD_append _ _ _ _ (by omega),
          List.getD_append _ _ _ _ (by omega)]
        exact hall k hklt
      · obtain rfl : k = pre.length := by omega
        rw [List.getD_append_right _ _ _ _ (by omega),
          List.getD_append_right _ _ _ _ (by omega), hlen]
        simpa using hspec
    | none =>
      have hres : dedupFirstOcc (pre ++ [x]) =
          ((dedupFirstOcc pre).1 ++ [x],
           (dedupFirstOcc pre).2 ++ [(dedupFirstOcc pre).1.length]) := by
        rw [hstep]; unfold get_index_step; rw [hfind]
      rw [hres]
      refine ⟨by simpa using by omega, fun k hk => ?_⟩
      simp only [List.length_append, List.length_singleton] at hk ⊢
      by_cases hklt : k < pre.length
      · obtain ⟨hb, hv⟩ := hall k hklt
        constructor
        · rw [List.getD_append _ _ _ _
            (show k < (dedupFirstOcc pre).2.length by omega)]
          omega
        · rw [List.getD_append _ _ _ _
            (show k < (dedupFirstOcc pre).2.length by omega),
            List.getD_append _ _ _ _ (show k < pre.length from hklt),
            List.getD_append _ _ _ _ hb]
          exact hv
      · obtain rfl : k = pre.length := by omega
        have hidx : ((dedupFirstOcc pre).2 ++
            [(dedupFirstOcc pre).1.length]).getD pre.length 0 =
            (dedupFirstOcc pre).1.length := by
          rw [List.getD_append_right _ _ _ _ (by omega), hlen]
          simp
        have huniq : ((dedupFirstOcc pre).1 ++ [x]).getD
            (dedupFirstOcc pre).1.length [] = x := by
          rw [List.getD_append_right _ _ _ _ le_rfl]
          simp
        have hsp : (pre ++ [x]).getD pre.length [] = x := by
          rw [List.getD_append_right _ _ _ _ le_rfl]
          simp
        rw [hidx, huniq, hsp]
        exact ⟨by omega, rfl⟩

/-- Claim C3: evaluation of `_consolidate_sources` at the concrete input
`weights = [1, 1, 2]`, identical rate-change tables.  Because the inner
`for` loop has no `break`, its `else` clause also runs after a duplicate is
found: the index list receives four entries for three sources, the
consolidated weight list keeps the duplicate, and the docstring contract
`consolidated[idx[i]] = source[i]` fails at `i = 2`
(`consolidated weight 1` instead of `2`). -/
theorem consolidate_sources_breaks_contract :
    (consolidate_sources [1, 1, 2]
      [[(0, 1000)], [(0, 1000)], [(0, 1000)]]).idx = [0, 0, 1, 2] ∧
    (consolidate_sources [1, 1, 2]
      [[(0, 1000)], [(0, 1000)], [(0, 1000)]]).wcons = [1, 1, 2] ∧
    (consolidate_sources [1, 1, 2]
      [[(0, 1000)], [(0, 1000)], [(0, 1000)]]).wcons.getD
      ((consolidate_sources [1, 1, 2]
        [[(0, 1000)], [(0, 1000)], [(0, 1000)]]).idx.getD 2 0) 0 ≠ 2 := by
  refine ⟨by decide, by decide, by decide⟩

/-- Claim C4, counterexample: the weight vector `[0, -1]` is all-nonpositive
(all-inhibitory under the canonical rule) yet the shared-generator compile
does not reject it — the guard only tests the strict `np.all(weights > 0)`
and `np.all(weights < 0)`. -/
theorem degeneracy_guard_zero_counterexample :
    ([(0 : ℚ), -1].all (fun w => decide (w ≤ 0)) = true) ∧
    degeneracy_check [(0 : ℚ), -1] = .ok () ∧
    (create_nest_optimized_pop false ⟨[1, 1], [0, -1]⟩ 1).err = none := by
  refine ⟨by decide, rfl, rfl⟩

/-- Claim C4, amended: the shared-generator compile raises the degeneracy
error iff the weights are all strictly positive or all strictly negative;
a vector containing a zero is never rejected. -/
theorem degeneracy_guard_amended (ws : List ℚ)
    (cfg : PoissonSourceConfiguration) (la : Bool) (n : ℕ) :
    (degeneracy_check ws = .ok () ↔
      (ws.all (fun w => decide (0 < w)) = false ∧
       ws.all (fun w => decide (w < 0)) = false)) ∧
    ((create_nest_optimized_pop la cfg n).err.isSome = true ↔
      ∃ e, degeneracy_check ((List.replicate n cfg.weights).flatten) =
        .error e) := by
  constructor
  · unfold degeneracy_check
    split_ifs with h1 h2
    · simp [h1]
    · simp [h1, h2]
    · simp [h1, h2]
  · unfold create_nest_optimized_pop
    cases hd : degeneracy_check ((List.replicate n cfg.weights).flatten) with
    | error e => simp [hd]
    | ok u => simp [hd, create_nest_optimized_core]

/-- Claim C5: evaluation of the sinus compile at the spec scenario (3 samplers
sharing one rate, `individual_spike_trains = false`).  The structure matches
the claim — 1 hidden generator, 1 shared-layer relay wired one-to-one, 3
visible relays — but the shared relay layer is requested under the model name
`"parrot_neurons"` (line 586), which differs from the relay model
`"parrot_neuron"` used by every other creation site in the file and does not
exist in NEST, so the backend rejects the creation call at runtime.  In the
default `true` mode no shared layer is requested. -/
theorem sinus_shared_relay_layer_eval :
    (sinus_create_nest_list
      [⟨[2000], [1000], [5], [0], [1], false⟩,
       ⟨[2000], [1000], [5], [0], [1], false⟩,
       ⟨[2000], [1000], [5], [0], [1], false⟩]).trace =
      [.create "sinusoidal_poisson_generator" 1,
       .create "parrot_neurons" 1,
       .connect 1 "one_to_one",
       .create "parrot_neuron" 3,
       .setStatus 1,
       .connect 3 "one_to_one",
       .connect 3 "one_to_one"] ∧
    (sinus_create_nest_list
      [⟨[2000], [1000], [5], [0], [1], false⟩,
       ⟨[2000], [1000], [5], [0], [1], false⟩,
       ⟨[2000], [1000], [5], [0], [1], false⟩]).err = none ∧
    (sinus_create_nest_list
      [⟨[2000], [1000], [5], [0], [1], true⟩,
       ⟨[2000], [1000], [5], [0], [1], true⟩,
       ⟨[2000], [1000], [5], [0], [1], true⟩]).trace =
      [.create "sinusoidal_poisson_generator" 1,
       .create "parrot_neuron" 3,
       .setStatus 1,
       .connect 3 "one_to_one",
       .connect 3 "one_to_one"] ∧
    "parrot_neurons" ≠ "parrot_neuron" := by
  refine ⟨by decide, by decide, by decide, by decide⟩

theorem poisson_source_model_ne_parrot (la : Bool) :
    poisson_source_model la ≠ "parrot_neuron" := by
  cases la <;> decide

theorem create_nest_optimized_core_counts (sm : String) (nsps : List ℕ)
    (rates weights : List ℚ) (hw : weights.length = rates.length)
    (hsm : sm ≠ "parrot_neuron") :
    (create_nest_optimized_core sm nsps rates weights).wiring.length =
      rates.length ∧
    createdOfModel "parrot_neuron"
      (create_nest_optimized_core sm nsps rates weights).trace =
      rates.length := by
  unfold create_nest_optimized_core createdOfModel
  constructor
  · simp [List.length_zip, hw]
  · simp [hsm]

/-- Claim C6: for both branches of the optimized Poisson compile, the number
of relay-to-target wiring rows and the number of parrot relays created both
equal the total number of source specs (sum over samplers of the per-sampler
rate count), provided each configuration has as many weights as rates (the
invariant `_verify_parameters` establishes) and, for the shared-population
branch, the compile did not abort. -/
theorem wiring_rows_eq_total_specs (la : Bool)
    (samplers : List PoissonSourceConfiguration)
    (hs : ∀ s ∈ samplers, s.weights.length = s.rates.length)
    (cfg : PoissonSourceConfiguration) (n : ℕ)
    (hc : cfg.weights.length = cfg.rates.length)
    (hok : (create_nest_optimized_pop la cfg n).err = none) :
    ((create_nest_optimized_list la samplers).wiring.length =
       (samplers.map (fun s => s.rates.length)).sum ∧
     createdOfModel "parrot_neuron"
       (create_nest_optimized_list la samplers).trace =
       (samplers.map (fun s => s.rates.length)).sum) ∧
    ((create_nest_optimized_pop la cfg n).wiring.length =
       n * cfg.rates.length ∧
     createdOfModel "parrot_neuron"
       (create_nest_optimized_pop la cfg n).trace =
       n * cfg.rates.length) := by
  have hrl : ((samplers.map (fun s => s.rates)).flatten).length =
      (samplers.map (fun s => s.rates.length)).sum := by
    rw [List.length_flatten, List.map_map]
    rfl
  have hwl : ((samplers.map (fun s => s.weights)).flatten).length =
      ((samplers.map (fun s => s.rates)).flatten).length := by
    rw [List.length_flatten, List.length_flatten, List.map_map, List.map_map]
    congr 1
    exact List.map_congr_left fun s hsmem => hs s hsmem
  constructor
  · have := create_nest_optimized_core_counts (poisson_source_model la)
      (samplers.map (fun s => s.rates.length))
      ((samplers.map (fun s => s.rates)).flatten)
      ((samplers.map (fun s => s.weights)).flatten)
      hwl (poisson_source_model_ne_parrot la)
    unfold create_nest_optimized_list
    rw [hrl] at this
    exact this
  · have hrpl : ((List.replicate n cfg.rates).flatten).length =
        n * cfg.rates.length := by
      rw [List.length_flatten, List.map_replicate]
      simp [List.sum_replicate, smul_eq_mul]
    have hwpl : ((List.replicate n cfg.weights).flatten).length =
        ((List.replicate n cfg.rates).flatten).length := by
      rw [List.length_flatten, List.length_flatten, List.map_replicate,
        List.map_replicate, hc]
    have hcore := create_nest_optimized_core_counts (poisson_source_model la)
      (List.replicate n cfg.rates.length)
      ((List.replicate n cfg.rates).flatten)
      ((List.replicate n cfg.weights).flatten)
      hwpl (poisson_source_model_ne_parrot la)
    unfold create_nest_optimized_pop at hok ⊢
    cases hd : degeneracy_check ((List.replicate n cfg.weights).flatten) with
    | error e => simp [hd] at hok
    | ok u =>
      simp only [hd]
      rw [hrpl] at hcore
      exact hcore

/-- Witness for C6 at one sampler with a single rate and, for the shared
branch, two mixed-sign weights. -/
theorem wiring_rows_eq_total_specs_witness :
    (((create_nest_optimized_list false [⟨[5], [1]⟩]).wiring.length =
        (([⟨[5], [1]⟩] : List PoissonSourceConfiguration).map
          (fun s => s.rates.length)).sum ∧
      createdOfModel "parrot_neuron"
        (create_nest_optimized_list false [⟨[5], [1]⟩]).trace =
        (([⟨[5], [1]⟩] : List PoissonSourceConfiguration).map
          (fun s => s.rates.length)).sum) ∧
     ((create_nest_optimized_pop false ⟨[7, 8], [1, -1]⟩ 1).wiring.length =
        1 * 2 ∧
      createdOfModel "parrot_neuron"
        (create_nest_optimized_pop false ⟨[7, 8], [1, -1]⟩ 1).trace =
        1 * 2)) :=
  wiring_rows_eq_total_specs false [⟨[5], [1]⟩]
    (by intro s hsmem; fin_cases hsmem; rfl)
    ⟨[7, 8], [1, -1]⟩ 1 rfl rfl

theorem groupByRuns_flatten [DecidableEq β] (f : α → β) (l : List α) :
    ((groupByRuns f l).map Prod.snd).flatten = l := by
  induction l with
  | nil => rfl
  | cons x xs ih =>
    cases h : groupByRuns f xs with
    | nil =>
      have hxs : xs = [] := by rw [h] at ih; simpa using ih.symm
      simp [groupByRuns, h, hxs]
    | cons p rest =>
      obtain ⟨k, g⟩ := p
      rw [h] at ih
      by_cases hk : f x = k
      · simp only [groupByRuns, h, if_pos hk, List.map_cons, List.flatten_cons]
        simp only [List.map_cons, List.flatten_cons] at ih
        simp [ih]
      · simp only [groupByRuns, h, if_neg hk, List.map_cons, List.flatten_cons]
        simp only [List.map_cons, List.flatten_cons] at ih
        simp [ih]

theorem groupByRuns_runs [DecidableEq β] (f : α → β) (l : List α) :
    ∀ p ∈ groupByRuns f l, p.2 ≠ [] ∧ ∀ a ∈ p.2, f a = p.1 := by
  induction l with
  | nil => simp [groupByRuns]
  | cons x xs ih =>
    cases h : groupByRuns f xs with
    | nil =>
      simp only [groupByRuns, h]
      rintro p hp
      rw [List.mem_singleton] at hp
      subst hp
      exact ⟨by simp, by simp⟩
    | cons q rest =>
      obtain ⟨k, g⟩ := q
      rw [h] at ih
      by_cases hk : f x = k
      · simp only [groupByRuns, h, if_pos hk]
        rintro p hp
        rcases List.mem_cons.mp hp with rfl | hp2
        · refine ⟨by simp, ?_⟩
          intro a ha
          rcases List.mem_cons.mp ha with rfl | ha2
          · exact hk
          · exact (ih (k, g) (List.mem_cons_self _ _)).2 a ha2
        · exact ih p (List.mem_cons_of_mem _ hp2)
      · simp only [groupByRuns, h, if_neg hk]
        rintro p hp
        rcases List.mem_cons.mp hp with rfl | hp2
        · exact ⟨by simp, by simp⟩
        · exact ih p hp2

theorem groupByRuns_chain [DecidableEq β] (f : α → β) (l : List α) :
    List.Chain' (fun p q => p.1 ≠ q.1) (groupByRuns f l) := by
  induction l with
  | nil => simp [groupByRuns]
  | cons x xs ih =>
    cases h : groupByRuns f xs with
    | nil => simp [groupByRuns, h]
    | cons q rest =>
      obtain ⟨k, g⟩ := q
      rw [h] at ih
      by_cases hk : f x = k
      · simp only [groupByRuns, h, if_pos hk]
        cases rest with
        | nil => simp
        | cons r rest2 =>
          rw [List.chain'_cons] at ih ⊢
          exact ih
      · simp only [groupByRuns, h, if_neg hk]
        rw [List.chain'_cons]
        exact ⟨hk, ih⟩

/-- Claim C7: the partitioner groups targets into maximal runs of consecutive
equal variant tags — concatenating the groups in order restores the input
(order preserved), every group is a nonempty constant-tag run, and adjacent
groups carry different tags (so two same-tag targets separated by a
different tag land in distinct groups, as the concrete `[0, 1, 2]` input
tagged by parity shows: the two even targets end up in two groups). -/
theorem adjacency_only_grouping [DecidableEq β] (f : α → β) (l : List α) :
    ((groupByRuns f l).map Prod.snd).flatten = l ∧
    (∀ p ∈ groupByRuns f l, p.2 ≠ [] ∧ ∀ a ∈ p.2, f a = p.1) ∧
    List.Chain' (fun p q => p.1 ≠ q.1) (groupByRuns f l) ∧
    groupByRuns (fun n : ℕ => n % 2) [0, 1, 2] =
      [(0, [0]), (1, [1]), (0, [2])] := by
  exact ⟨groupByRuns_flatten f l, groupByRuns_runs f l,
    groupByRuns_chain f l, by decide⟩

/-- Witness for C7: the run properties applied to the concrete parity-tagged
input `[0, 1, 2]` and its first group. -/
theorem adjacency_only_grouping_witness :
    ((groupByRuns (fun n : ℕ => n % 2) [0, 1, 2]).map Prod.snd).flatten =
      [0, 1, 2] ∧
    ((0, [0]) : ℕ × List ℕ).2 ≠ [] ∧
    (∀ a ∈ ((0, [0]) : ℕ × List ℕ).2, a % 2 = ((0, [0]) : ℕ × List ℕ).1) :=
  ⟨(adjacency_only_grouping (fun n : ℕ => n % 2) [0, 1, 2]).1,
   ((adjacency_only_grouping (fun n : ℕ => n % 2) [0, 1, 2]).2.1
     (0, [0]) (by decide)).1,
   ((adjacency_only_grouping (fun n : ℕ => n % 2) [0, 1, 2]).2.1
     (0, [0]) (by decide)).2⟩

/-- Claim C8: in every modelled compile path, a raised validation error means
the backend-call trace contains no entity-creation call at all — the
degeneracy and consistency guards run before the first `nest.Create`. -/
theorem validation_before_creation (la : Bool)
    (cfg : PoissonSourceConfiguration) (n : ℕ)
    (scfgs : List SinusPoissonSourceConfiguration)
    (scfg : SinusPoissonSourceConfiguration) (m : ℕ) :
    ((create_nest_optimized_pop la cfg n).err.isSome = true →
      (create_nest_optimized_pop la cfg n).trace.filter
        BackendCall.isCreate = []) ∧
    ((sinus_create_nest_list scfgs).err.isSome = true →
      (sinus_create_nest_list scfgs).trace.filter
        BackendCall.isCreate = []) ∧
    ((sinus_create_nest_pop scfg m).err.isSome = true →
      (sinus_create_nest_pop scfg m).trace.filter
        BackendCall.isCreate = []) := by
  refine ⟨?_, ?_, ?_⟩
  · unfold create_nest_optimized_pop
    cases hd : degeneracy_check ((List.replicate n cfg.weights).flatten) with
    | error e => simp [hd]
    | ok u => simp [hd, create_nest_optimized_core]
  · unfold sinus_create_nest_list
    cases scfgs with
    | nil => simp
    | cons s0 rest =>
      by_cases hall : (s0 :: rest).all
          (fun s => s.individual_spike_trains = s0.individual_spike_trains)
      · simp only [hall, if_true]
        simp [sinus_create_nest_core]
      · simp only [hall, if_false]
        simp
  · unfold sinus_create_nest_pop
    cases hd : degeneracy_check ((List.replicate m scfg.weights).flatten) with
    | error e => simp [hd]
    | ok u => simp [hd, sinus_create_nest_core]

/-- Witness for C8: three concrete failing compiles (all-positive shared
weights; inconsistent `individual_spike_trains` flags; all-positive shared
sinus weights) each leave the trace free of creation calls. -/
theorem validation_before_creation_witness :
    (create_nest_optimized_pop false ⟨[1], [1]⟩ 1).trace.filter
      BackendCall.isCreate = [] ∧
    (sinus_create_nest_list
      [⟨[1], [1], [1], [1], [1], true⟩,
       ⟨[1], [1], [1], [1], [1], false⟩]).trace.filter
      BackendCall.isCreate = [] ∧
    (sinus_create_nest_pop ⟨[1], [1], [1], [1], [1], true⟩ 1).trace.filter
      BackendCall.isCreate = [] :=
  ⟨(validation_before_creation false ⟨[1], [1]⟩ 1 [] ⟨[1], [1], [1], [1], [1], true⟩ 1).1
      (by decide),
   (validation_before_creation false ⟨[1], [1]⟩ 1
      [⟨[1], [1], [1], [1], [1], true⟩, ⟨[1], [1], [1], [1], [1], false⟩]
      ⟨[1], [1], [1], [1], [1], true⟩ 1).2.1 (by decide),
   (validation_before_creation false ⟨[1], [1]⟩ 1 []
      ⟨[1], [1], [1], [1], [1], true⟩ 1).2.2 (by decide)⟩

/-- Claim C9: a parameter array of size 1 is broadcast to the length of the
weights array; a size that is neither 1 nor the weights length raises the
shape error; a size equal to the weights length passes the values through
unchanged — for `PoissonSourceConfiguration._verify_parameters` and for each
parameter of `SinusPoissonSourceConfiguration._verify_parameters`. -/
theorem verify_parameters_broadcast (p w : List ℚ) :
    (p.length = 1 →
      poisson_verify_parameters p w =
        .ok (List.replicate w.length (p.getD 0 0)) ∧
      sinus_verify_parameter p w =
        .ok (List.replicate w.length (p.getD 0 0))) ∧
    (p.length ≠ 1 → p.length ≠ w.length →
      poisson_verify_parameters p w = .error
        "rates-parameter needs to be either scalar or same length as weights-array." ∧
      sinus_verify_parameter p w = .error
        "\x7b\x7d-parameter needs to be either scalar or same length as weights-array.") ∧
    (p.length = w.length →
      poisson_verify_parameters p w = .ok p ∧
      sinus_verify_parameter p w = .ok p) := by
  refine ⟨fun h1 => ?_, fun h1 h2 => ?_, fun heq => ?_⟩
  · unfold poisson_verify_parameters sinus_verify_parameter
    rw [if_pos h1, if_pos h1]
    exact ⟨rfl, rfl⟩
  · unfold poisson_verify_parameters sinus_verify_parameter
    rw [if_neg h1, if_neg h1, if_pos h2, if_pos h2]
    exact ⟨rfl, rfl⟩
  · by_cases h1 : p.length = 1
    · obtain ⟨a, rfl⟩ := List.length_eq_one.mp h1
      unfold poisson_verify_parameters sinus_verify_parameter
      rw [if_pos h1, if_pos h1, ← heq, h1]
      exact ⟨rfl, rfl⟩
    · unfold poisson_verify_parameters sinus_verify_parameter
      rw [if_neg h1, if_neg h1, if_neg (by omega), if_neg (by omega)]
      exact ⟨rfl, rfl⟩

/-- Witness for C9: broadcast of the scalar rate `[5]` against two weights,
the shape error at three rates against two weights, and pass-through at two
rates against two weights. -/
theorem verify_parameters_broadcast_witness :
    (poisson_verify_parameters [5] [1, 2] =
      .ok (List.replicate ([1, (2 : ℚ)] : List ℚ).length (([5] : List ℚ).getD 0 0)) ∧
     sinus_verify_parameter [5] [1, 2] =
      .ok (List.replicate ([1, (2 : ℚ)] : List ℚ).length (([5] : List ℚ).getD 0 0))) ∧
    (poisson_verify_parameters [5, 6, 7] [1, 2] = .error
      "rates-parameter needs to be either scalar or same length as weights-array." ∧
     sinus_verify_parameter [5, 6, 7] [1, 2] = .error
      "\x7b\x7d-parameter needs to be either scalar or same length as weights-array.") ∧
    (poisson_verify_parameters [5, 6] [1, 2] = .ok [5, 6] ∧
     sinus_verify_parameter [5, 6] [1, 2] = .ok [5, 6]) :=
  ⟨(verify_parameters_broadcast [5] [1, 2]).1 rfl,
   (verify_parameters_broadcast [5, 6, 7] [1, 2]).2.1 (by decide) (by decide),
   (verify_parameters_broadcast [5, 6] [1, 2]).2.2 rfl⟩

theorem roundHalfEven_le_of_le (q : ℚ) (N : ℕ) (h : q ≤ N) :
    roundHalfEven q ≤ N := by
  have hfl : ⌊q⌋ ≤ (N : ℤ) := by
    have := Int.floor_le_floor h
    simpa using this
  have hq : (⌊q⌋ : ℚ) ≤ q := Int.floor_le q
  have key : ¬(q - ⌊q⌋ < 1 / 2) → ⌊q⌋ + 1 ≤ (N : ℤ) := by
    intro h1
    have h4 : (1 : ℚ) / 2 ≤ q - ⌊q⌋ := not_lt.mp h1
    rcases lt_or_eq_of_le hfl with hlt | heq
    · omega
    · exfalso
      have hcast : ((⌊q⌋ : ℤ) : ℚ) = (N : ℚ) := by exact_mod_cast heq
      have : (N : ℚ) + 1 / 2 ≤ q := by
        rw [← hcast]
        linarith
      linarith
  unfold roundHalfEven
  split_ifs with h1 h2 h3
  · exact hfl
  · exact key h1
  · exact hfl
  · exact key h1

theorem num_exc_le (N : ℕ) (g : ℚ) (hg0 : 0 ≤ g) (hg1 : g ≤ 1) :
    num_exc N g ≤ N := by
  have hq : (N : ℚ) * g ≤ N := by
    calc (N : ℚ) * g ≤ (N : ℚ) * 1 := by
          exact mul_le_mul_of_nonneg_left hg1 (by positivity)
      _ = N := mul_one _
  have := roundHalfEven_le_of_le ((N : ℚ) * g) N hq
  unfold num_exc
  omega

theorem mem_take_range (N k x : ℕ) :
    x ∈ (List.range N).take k ↔ x < k ∧ x < N := by
  rw [List.take_range, List.mem_range]
  omega

theorem mem_drop_range (N k x : ℕ) :
    x ∈ (List.range N).drop k ↔ k ≤ x ∧ x < N := by
  constructor
  · intro h
    rw [List.mem_iff_getElem] at h
    obtain ⟨j, hj, hx⟩ := h
    rw [List.getElem_drop, List.getElem_range] at hx
    rw [List.length_drop, List.length_range] at hj
    omega
  · rintro ⟨h1, h2⟩
    rw [List.mem_iff_getElem]
    refine ⟨x - k, ?_, ?_⟩
    · rw [List.length_drop, List.length_range]
      omega
    · rw [List.getElem_drop, List.getElem_range]
      omega

/-- Claim C10: with `num_exc = round(N * gamma)` and `num_inh = N - num_exc`
for `gamma ∈ [0, 1]` and population `range N` (`N > 0`), the excitatory slice
`source[:num_exc]` and the inhibitory slice `source[-num_inh:]` are disjoint
and together cover the population iff `num_inh > 0`; when `num_inh = 0` the
Python slice `source[-0:]` is the whole population (as is the excitatory
slice), so every source is wired both excitatorily and inhibitorily. -/
theorem noise_pool_slices_partition (N : ℕ) (g : ℚ)
    (hN : 0 < N) (hg0 : 0 ≤ g) (hg1 : g ≤ 1) :
    (((∀ x ∈ (List.range N).take (num_exc N g),
         x ∉ pySliceFromNeg (List.range N) (num_inh N g)) ∧
      (∀ x ∈ List.range N,
         x ∈ (List.range N).take (num_exc N g) ∨
         x ∈ pySliceFromNeg (List.range N) (num_inh N g))) ↔
      0 < num_inh N g) ∧
    (num_inh N g = 0 →
      pySliceFromNeg (List.range N) (num_inh N g) = List.range N ∧
      (List.range N).take (num_exc N g) = List.range N) := by
  have hle : num_exc N g ≤ N := num_exc_le N g hg0 hg1
  have hinh : num_inh N g = N - num_exc N g := rfl
  by_cases h0 : num_inh N g = 0
  · have he : num_exc N g = N := by omega
    constructor
    · constructor
      · rintro ⟨hdisj, _⟩
        exfalso
        have h0mem : (0 : ℕ) ∈ (List.range N).take (num_exc N g) := by
          rw [mem_take_range]
          omega
        have h0slice : (0 : ℕ) ∈ pySliceFromNeg (List.range N) (num_inh N g) := by
          unfold pySliceFromNeg
          rw [if_pos h0, List.mem_range]
          omega
        exact hdisj 0 h0mem h0slice
      · intro hc
        omega
    · intro _
      constructor
      · unfold pySliceFromNeg
        rw [if_pos h0]
      · rw [he]
        exact List.take_of_length_le (by rw [List.length_range])
  · have hpos : 0 < num_inh N g := Nat.pos_of_ne_zero h0
    have hslice : pySliceFromNeg (List.range N) (num_inh N g) =
        (List.range N).drop (num_exc N g) := by
      unfold pySliceFromNeg
      rw [if_neg h0, List.length_range]
      congr 1
      omega
    constructor
    · constructor
      · exact fun _ => hpos
      · intro _
        refine ⟨fun x hx => ?_, fun x hx => ?_⟩
        · rw [mem_take_range] at hx
          rw [hslice, mem_drop_range]
          omega
        · rw [List.mem_range] at hx
          rw [mem_take_range, hslice, mem_drop_range]
          omega
    · intro hc
      exact absurd hc h0

/-- Witness for C10 at `N = 2`, `gamma = 1/2` (one excitatory, one
inhibitory source). -/
theorem noise_pool_slices_partition_witness :
    (((∀ x ∈ (List.range 2).take (num_exc 2 (1 / 2)),
         x ∉ pySliceFromNeg (List.range 2) (num_inh 2 (1 / 2))) ∧
      (∀ x ∈ List.range 2,
         x ∈ (List.range 2).take (num_exc 2 (1 / 2)) ∨
         x ∈ pySliceFromNeg (List.range 2) (num_inh 2 (1 / 2)))) ↔
      0 < num_inh 2 (1 / 2)) ∧
    (num_inh 2 (1 / 2) = 0 →
      pySliceFromNeg (List.range 2) (num_inh 2 (1 / 2)) = List.range 2 ∧
      (List.range 2).take (num_exc 2 (1 / 2)) = List.range 2) :=
  noise_pool_slices_partition 2 (1 / 2) (by norm_num) (by norm_num) (by norm_num)

/-- Witness for C4's amended guard: the mixed-sign vector `[1, -1]` passes
the degeneracy check. -/
theorem degeneracy_guard_amended_witness :
    degeneracy_check [(1 : ℚ), -1] = .ok () :=
  (degeneracy_guard_amended [(1 : ℚ), -1] ⟨[], []⟩ false 0).1.mpr
    ⟨by decide, by decide⟩
